import Mathlib

/-!
Verification of the AetherPackBot event/plugin orchestration runtime.

This file gives a shallow embedding of the core of the repository —
the priority event bus (`aetherpackbot/core/events.py`), the plugin
loader (`aetherpackbot/plugins/loader.py`), the engine
(`aetherpackbot/core/engine.py`) and the context command parsing
(`aetherpackbot/core/context.py`) — and proves the specified
properties about it.

Modelling conventions:
- handler functions are identified by a natural-number id; a handler's
  run on an event is modelled by a behaviour function
  `Nat → Bool → Bool × Bool` mapping the handler id and the event's
  `cancelled` flag to the new `cancelled` flag and whether the handler
  raised an exception;
- Python dictionaries (insertion-ordered) are association lists with
  update-in-place-or-append assignment;
- Python strings are `String` except in the command-parsing model,
  where `List Char` is used so that tokenisation is structural.
-/

namespace AetherPackBot

/-- Registration record for one subscribed handler
(`HandlerInfo` in `core/events.py`): handler identity, numeric
priority (lower runs first) and the one-shot flag. -/
structure HandlerInfo where
  id : Nat
  priority : Nat
  once : Bool
deriving DecidableEq, Repr

/-- Insertion step of a stable sort by priority: the new registration
goes after every existing registration of priority less than or equal
to its own. -/
def insertStable (a : HandlerInfo) : List HandlerInfo → List HandlerInfo
  | [] => [a]
  | b :: l => if b.priority ≤ a.priority then b :: insertStable a l else a :: b :: l

/-- Python's stable `list.sort(key=lambda h: h.priority)` modelled as a
stable insertion sort: elements are processed left to right and each is
inserted after all previously placed elements of priority less than or
equal to its own, so equal-priority elements keep their original order. -/
def stableSortByPriority (l : List HandlerInfo) : List HandlerInfo :=
  l.foldl (fun acc a => insertStable a acc) []

/-- `EventBus.subscribe`: append the new registration to the event
type's list and re-sort the list stably by priority. -/
def subscribe (handlers : List HandlerInfo) (info : HandlerInfo) : List HandlerInfo :=
  stableSortByPriority (handlers ++ [info])

/-- Removal of the first registration with the given handler identity:
this is `EventBus.unsubscribe`, and also each `list.remove(info)` step
of the once-handler cleanup in `EventBus.emit` (registrations are
distinguished by handler identity in the model). -/
def removeFirstById (l : List HandlerInfo) (x : Nat) : List HandlerInfo :=
  match l with
  | [] => []
  | h :: t => if h.id = x then t else h :: removeFirstById t x

/-- Result of the dispatch loop of `EventBus.emit`: ids of the handlers
invoked in order, the event's final `cancelled` flag, and the ids
collected in `to_remove` (once-handlers that ran without raising). -/
structure EmitResult where
  invoked : List Nat
  cancelled : Bool
  toRemove : List Nat
deriving DecidableEq, Repr

/-- Dispatch loop of `EventBus.emit` over the snapshot of the handler
list: before each handler the `cancelled` flag is checked and the loop
breaks if it is set; otherwise the handler runs (`beh info.id c` gives
the new flag and whether it raised), an exception is caught by the
`try`/`except` and dispatch continues, and `to_remove` records the
handler when `info.once` holds and the handler did not raise (the
`if info.once` bookkeeping sits inside the `try`, after the call). -/
def emitLoop (beh : Nat → Bool → Bool × Bool) : List HandlerInfo → Bool → EmitResult
  | [], c => { invoked := [], cancelled := c, toRemove := [] }
  | info :: rest, c =>
    if c then { invoked := [], cancelled := c, toRemove := [] }
    else
      let step := beh info.id c
      let r := emitLoop beh rest step.1
      { invoked := info.id :: r.invoked
        cancelled := r.cancelled
        toRemove := (if info.once && !step.2 then [info.id] else []) ++ r.toRemove }

/-- `EventBus.emit` for one event type: run the dispatch loop on a
snapshot of the registration list, then remove each collected
once-handler from the live list. Returns the dispatch result and the
new registration list. -/
def emit (beh : Nat → Bool → Bool × Bool) (bus : List HandlerInfo) (c₀ : Bool) :
    EmitResult × List HandlerInfo :=
  let r := emitLoop beh bus c₀
  (r, r.toRemove.foldl removeFirstById bus)

/-- Event `cancelled` flag after the handlers of a list have run in
order starting from flag `c` (no break, no interference): used to
express intermediate dispatch states. -/
def cancelState (beh : Nat → Bool → Bool × Bool) (hs : List HandlerInfo) (c : Bool) : Bool :=
  hs.foldl (fun c h => (beh h.id c).1) c

/-- Behaviour with the same event mutations but no exceptions: used to
compare a dispatch against the same dispatch with all raises removed. -/
def stripRaises (beh : Nat → Bool → Bool × Bool) : Nat → Bool → Bool × Bool :=
  fun i c => ((beh i c).1, false)

/-- Bus mutation performed by another task: a `subscribe` or an
`unsubscribe` on the same event type's registration list. -/
inductive BusOp where
  | sub (info : HandlerInfo)
  | unsub (id : Nat)
deriving DecidableEq, Repr

/-- Application of one concurrent bus mutation to the live list. -/
def applyOp (bus : List HandlerInfo) : BusOp → List HandlerInfo
  | .sub info => subscribe bus info
  | .unsub x => removeFirstById bus x

/-- Application of a batch of concurrent bus mutations in order. -/
def applyOps (bus : List HandlerInfo) (ops : List BusOp) : List HandlerInfo :=
  ops.foldl applyOp bus

/-- Dispatch loop of `EventBus.emit` with interference: while the k-th
handler of the snapshot is suspended, the batch `ops k` of concurrent
subscribe/unsubscribe calls mutates the live registration list. The
loop itself iterates only the snapshot. Returns the dispatch result
and the mutated live list. -/
def emitLoopI (beh : Nat → Bool → Bool × Bool) (ops : Nat → List BusOp) :
    List HandlerInfo → Nat → Bool → List HandlerInfo → EmitResult × List HandlerInfo
  | [], _, c, live => ({ invoked := [], cancelled := c, toRemove := [] }, live)
  | info :: rest, k, c, live =>
    if c then ({ invoked := [], cancelled := c, toRemove := [] }, live)
    else
      let live' := applyOps live (ops k)
      let step := beh info.id c
      let res := emitLoopI beh ops rest (k + 1) step.1 live'
      ({ invoked := info.id :: res.1.invoked
         cancelled := res.1.cancelled
         toRemove := (if info.once && !step.2 then [info.id] else []) ++ res.1.toRemove },
       res.2)

/-- `EventBus.emit` with concurrent bus mutations interleaved into the
dispatch: the snapshot is taken at call start (`list(...)` in the
source), the loop runs on the snapshot while the live list mutates,
and the once-handler cleanup then runs against the live list. -/
def emitI (beh : Nat → Bool → Bool × Bool) (ops : Nat → List BusOp)
    (bus : List HandlerInfo) (c₀ : Bool) : EmitResult × List HandlerInfo :=
  let res := emitLoopI beh ops bus 0 c₀ bus
  (res.1, res.1.toRemove.foldl removeFirstById res.2)

/-- Tagging of a subscription sequence with registration indices: the
i-th subscription request (priority, once) becomes a `HandlerInfo`
whose id is its registration index. -/
def tagRegs : Nat → List (Nat × Bool) → List HandlerInfo
  | _, [] => []
  | i, r :: rs => { id := i, priority := r.1, once := r.2 } :: tagRegs (i + 1) rs

/-- Registration list produced by a whole sequence of `subscribe`
calls on an initially empty bus. -/
def subscribeAll (regs : List (Nat × Bool)) : List HandlerInfo :=
  (tagRegs 0 regs).foldl subscribe []

/-- Number of registrations with a given handler identity. -/
def countById (l : List HandlerInfo) (x : Nat) : Nat :=
  (l.filter (fun h => h.id == x)).length

/-- Run a sequence of sequential `emit` calls against a bus; each call
has its own handler behaviours (the event payload differs per call)
and its own initial `cancelled` flag. Returns the invocation trace of
each call and the final registration list. -/
def runEmits : List ((Nat → Bool → Bool × Bool) × Bool) → List HandlerInfo →
    List (List Nat) × List HandlerInfo
  | [], bus => ([], bus)
  | e :: es, bus =>
    let r := emit e.1 bus e.2
    let rest := runEmits es r.2
    (r.1.invoked :: rest.1, rest.2)

/-- Total number of invocations of handler `x` across a sequence of
emit traces. -/
def totalInvocations (x : Nat) (traces : List (List Nat)) : Nat :=
  (traces.map (fun t => t.count x)).sum

/-- Strict dispatch order on registrations: lower priority first, and
among equal priorities lower registration index first. -/
def lexLt (a b : HandlerInfo) : Prop :=
  a.priority < b.priority ∨ (a.priority = b.priority ∧ a.id < b.id)

instance : DecidableRel lexLt := fun a b => by
  unfold lexLt
  infer_instance

/-! Plugin loader (`aetherpackbot/plugins/loader.py`). Plugin instances
are identified by a natural-number instance id; a fresh-id counter in
the loader state models instantiation of a new `Plugin` object. -/

/-- Loadable plugin unit on disk: its name, whether it is a package
(a directory with a package entry file) or a standalone module file,
and whether executing the unit yields a usable `Plugin` instance
(`ok = false` covers a failing unit body, a missing concrete `Plugin`
subclass and a raising constructor, all of which `_load_from_path`
catches and turns into an absent result). -/
structure PlugUnit where
  name : String
  isPackage : Bool
  ok : Bool
deriving DecidableEq, Repr

/-- Search for a unit in one plugin directory: a package entry is
tried before a standalone module of the same name. -/
def findUnitInDir (d : List PlugUnit) (name : String) : Option PlugUnit :=
  match d.find? (fun u => u.name == name && u.isPackage) with
  | some u => some u
  | none => d.find? (fun u => u.name == name && !u.isPackage)

/-- Search across the registered plugin directories in registration
order; the first directory containing the unit wins. -/
def findUnit : List (List PlugUnit) → String → Option PlugUnit
  | [], _ => none
  | d :: ds, name =>
    match findUnitInDir d name with
    | some u => some u
    | none => findUnit ds name

/-- Python-dict assignment on an insertion-ordered association list:
an existing key keeps its position and gets the new value, a new key
is appended at the end. -/
def dictInsert (l : List (String × Nat)) (k : String) (v : Nat) : List (String × Nat) :=
  match l with
  | [] => [(k, v)]
  | p :: t => if p.1 == k then (k, v) :: t else p :: dictInsert t k v

/-- Combined state of a `PluginLoader` and the plugin registry of its
`BotEngine`: search directories, the loader's `_loaded` dict, the
engine's `_plugins` dict, and the fresh instance-id counter. -/
structure LoaderState where
  dirs : List (List PlugUnit)
  loaded : List (String × Nat)
  enginePlugins : List (String × Nat)
  nextId : Nat
deriving DecidableEq, Repr

/-- `PluginLoader.load`: return the cached instance when the name is
already loaded; otherwise locate the unit across the directories, and
on success instantiate a fresh plugin, record it in the loader's
`_loaded` dict and register it into the engine's plugin registry. A
missing or faulty unit yields an absent result and leaves the state
unchanged. -/
def load (st : LoaderState) (name : String) : Option Nat × LoaderState :=
  match List.lookup name st.loaded with
  | some pid => (some pid, st)
  | none =>
    match findUnit st.dirs name with
    | none => (none, st)
    | some u =>
      if u.ok then
        (some st.nextId,
          { st with
            loaded := dictInsert st.loaded name st.nextId
            enginePlugins := dictInsert st.enginePlugins name st.nextId
            nextId := st.nextId + 1 })
      else (none, st)

/-! Engine (`aetherpackbot/core/engine.py`). Side effects of the
start/stop sequencing are recorded as an explicit action trace. -/

/-- Observable engine action: a plugin lifecycle hook invocation, a
platform start/stop, or a lifecycle event emitted through the bus. -/
inductive EngAction where
  | onLoad (name : String)
  | startPlatform (name : String)
  | emitStarted
  | emitStopping
  | stopPlatform (name : String)
  | onUnload (name : String)
deriving DecidableEq, Repr

/-- State of a `BotEngine`: the three insertion-ordered registries,
the configured default provider name, the `_running` flag and the
`_shutdown_event` flag. Platform, provider and plugin instances are
identified by natural-number ids. -/
structure EngineState where
  platforms : List (String × Nat)
  providers : List (String × Nat)
  plugins : List (String × Nat)
  defaultProvider : String
  running : Bool
  shutdownSet : Bool
deriving DecidableEq, Repr

/-- `BotEngine.register_provider`: dict assignment into the provider
registry. -/
def registerProvider (s : EngineState) (name : String) (pid : Nat) : EngineState :=
  { s with providers := dictInsert s.providers name pid }

/-- `BotEngine.get_default_provider`: absent when no providers are
registered; the provider under the configured default name when that
name is truthy (non-empty) and present; otherwise the first provider
in the registry's insertion order. -/
def getDefaultProvider (s : EngineState) : Option Nat :=
  if s.providers.isEmpty then none
  else if s.defaultProvider != "" && (List.lookup s.defaultProvider s.providers).isSome then
    List.lookup s.defaultProvider s.providers
  else (s.providers.head?).map (fun p => p.2)

/-- `BotEngine.start` up to its terminal wait on the shutdown event
(the wait is modelled by the session function below): when already
running it logs and returns with no actions; otherwise it flips
`_running`, invokes every plugin's `on_load` hook (faults caught
per-plugin), starts every platform as a task, and emits
`EngineStartedEvent`. -/
def start (s : EngineState) : EngineState × List EngAction :=
  if s.running then (s, [])
  else
    ({ s with running := true },
      s.plugins.map (fun p => EngAction.onLoad p.1)
        ++ s.platforms.map (fun p => EngAction.startPlatform p.1)
        ++ [EngAction.emitStarted])

/-- `BotEngine.stop`: a no-op when not running; otherwise it emits
`EngineStoppingEvent`, stops every platform, invokes every plugin's
`on_unload` hook (faults caught per component), flips `_running` off
and sets the shutdown event. -/
def stop (s : EngineState) : EngineState × List EngAction :=
  if s.running then
    ({ s with running := false, shutdownSet := true },
      [EngAction.emitStopping]
        ++ s.platforms.map (fun p => EngAction.stopPlatform p.1)
        ++ s.plugins.map (fun p => EngAction.onUnload p.1))
  else (s, [])

/-- `BotEngine.request_shutdown`: sets the shutdown event and nothing
else. -/
def requestShutdown (s : EngineState) : EngineState × List EngAction :=
  ({ s with shutdownSet := true }, [])

/-- Termination-signal handler installed by `run_forever`: it
schedules `stop()` as a task. -/
def signalHandler (s : EngineState) : EngineState × List EngAction :=
  stop s

/-- One `run_forever` session: `start` runs and the engine suspends on
the shutdown event; then one shutdown trigger fires (the installed
signal handler, or a collaborator calling `request_shutdown`); the
wait — and with it `start` and `run_forever` — returns once the
shutdown event is set. Returns the final state, the full action trace
and whether the wait was released. -/
def runForeverSession (s : EngineState)
    (trigger : EngineState → EngineState × List EngAction) :
    EngineState × List EngAction × Bool :=
  let r₁ := start s
  let r₂ := trigger r₁.1
  (r₂.1, r₁.2 ++ r₂.2, r₂.1.shutdownSet)

/-! Context command parsing (`aetherpackbot/core/context.py`).
Message text is modelled as `List Char`. -/

/-- Message content variants (`messages/message.py`): a closed tagged
union; only the text variant carries a `text` attribute, image and
video carry an optional caption instead. -/
inductive MsgContent where
  | textC (t : List Char)
  | imageC (caption : Option (List Char))
  | audioC
  | videoC (caption : Option (List Char))
  | fileC
deriving DecidableEq, Repr

/-- Text attribute of a content variant when it has one
(`hasattr(content, "text")` in the source): only the text variant
does. -/
def contentText : MsgContent → Option (List Char)
  | .textC t => some t
  | _ => none

/-- Context fields relevant to command parsing: the optional message
(reduced to its content). -/
structure Context where
  message : Option MsgContent
deriving DecidableEq, Repr

/-- Python's `str.split()` with no separator: split on runs of
whitespace, discarding empty pieces. -/
def pyWords (s : List Char) : List (List Char) :=
  match s with
  | [] => []
  | c :: cs =>
    if c.isWhitespace then pyWords cs
    else
      (c :: cs).takeWhile (fun ch => !ch.isWhitespace) ::
        pyWords ((c :: cs).dropWhile (fun ch => !ch.isWhitespace))
termination_by s.length
decreasing_by
  · simp only [List.length_cons]
    omega
  · simp only [List.dropWhile_cons]
    simp_all only [Bool.not_eq_eq_eq_not, Bool.not_true, Bool.not_false, if_true]
    exact Nat.lt_succ_of_le (List.dropWhile_sublist _).length_le

/-- `Context.text`: the message's text content, or the empty string
when there is no message or the content has no text attribute. -/
def Context.text (c : Context) : List Char :=
  match c.message with
  | some m =>
    match contentText m with
    | some t => t
    | none => []
  | none => []

/-- `Context.is_command`: the text starts with the "/" prefix. -/
def Context.isCommand (c : Context) : Bool :=
  List.isPrefixOf ['/'] (Context.text c)

/-- `Context.command`: on a command, split the text into tokens, drop
the first character of the first token and lowercase it; absent
otherwise (the source also guards against an empty token list). -/
def Context.command (c : Context) : Option (List Char) :=
  if Context.isCommand c then
    match pyWords (Context.text c) with
    | [] => none
    | p :: _ => some ((p.drop 1).map Char.toLower)
  else none

/-- `Context.args`: on a command, the tokens after the first; the
empty list otherwise. -/
def Context.args (c : Context) : List (List Char) :=
  if Context.isCommand c then (pyWords (Context.text c)).tail else []

/-! Concrete inputs used to instantiate the theorems below. -/

/-- Handler behaviour that neither cancels nor raises. -/
def behInert : Nat → Bool → Bool × Bool := fun _ c => (c, false)

/-- Handler behaviour where handler 1 cancels the event. -/
def behCancelAtOne : Nat → Bool → Bool × Bool := fun i c => (if i = 1 then true else c, false)

/-- Handler behaviour where handler 1 raises and nobody cancels. -/
def behRaiseAtOne : Nat → Bool → Bool × Bool := fun i c => (c, i == 1)

/-- Handler behaviour where every handler raises and nobody cancels. -/
def behRaiseAll : Nat → Bool → Bool × Bool := fun _ c => (c, true)

/-- Subscription sequence LOW, HIGH, NORMAL, HIGH: exercises both
reordering by priority and an equal-priority tie. -/
def regsEx : List (Nat × Bool) := [(75, false), (25, false), (50, false), (25, false)]

/-- Three-handler bus at priorities HIGH, NORMAL, LOW. -/
def busEx : List HandlerInfo :=
  [{ id := 0, priority := 25, once := false },
   { id := 1, priority := 50, once := false },
   { id := 2, priority := 75, once := false }]

/-- Bus with a single once-handler. -/
def onceBus : List HandlerInfo := [{ id := 0, priority := 50, once := true }]

/-- Loader with one directory holding one loadable module unit. -/
def loaderEx : LoaderState :=
  { dirs := [[{ name := "echo", isPackage := false, ok := true }]]
    loaded := []
    enginePlugins := []
    nextId := 0 }

/-- Idle engine with one platform and one plugin registered. -/
def engIdle : EngineState :=
  { platforms := [("telegram", 0)]
    providers := []
    plugins := [("echo", 1)]
    defaultProvider := "openai"
    running := false
    shutdownSet := false }

/-- Running engine with one platform and one plugin registered. -/
def engRunning : EngineState :=
  { engIdle with running := true }

/-- Engine whose configured default provider name is the empty string
while a provider is registered under the empty name after another
provider: the registry key equal to the default name is present. -/
def engEmptyDefault : EngineState :=
  { platforms := []
    providers := [("b", 2), ("", 1)]
    plugins := []
    defaultProvider := ""
    running := false
    shutdownSet := false }

/-- Engine with providers and a configured default that is present. -/
def engWithDefault : EngineState :=
  { platforms := []
    providers := [("openai", 7), ("gemini", 8)]
    plugins := []
    defaultProvider := "gemini"
    running := false
    shutdownSet := false }

/-- Context carrying the text message "/Echo hello world". -/
def ctxEx : Context :=
  { message := some (MsgContent.textC ("/Echo hello world".toList)) }

/-! Theorems. First, ordering lemmas for the stable sort used by
`subscribe`. -/

theorem insertStable_perm (a : HandlerInfo) (l : List HandlerInfo) :
    List.Perm (insertStable a l) (a :: l) := by
  induction l with
  | nil => rfl
  | cons b t ih =>
    simp only [insertStable]
    split
    · exact (ih.cons b).trans (List.Perm.swap a b t)
    · exact List.Perm.refl _

theorem mem_insertStable {x a : HandlerInfo} {l : List HandlerInfo} :
    x ∈ insertStable a l ↔ x = a ∨ x ∈ l := by
  rw [(insertStable_perm a l).mem_iff, List.mem_cons]

theorem stableSort_append_one (l : List HandlerInfo) (a : HandlerInfo) :
    stableSortByPriority (l ++ [a]) = insertStable a (stableSortByPriority l) := by
  simp [stableSortByPriority, List.foldl_append]

theorem insertStable_of_all_le {a : HandlerInfo} {l : List HandlerInfo}
    (h : ∀ x ∈ l, x.priority ≤ a.priority) : insertStable a l = l ++ [a] := by
  induction l with
  | nil => rfl
  | cons b t ih =>
    simp only [insertStable]
    rw [if_pos (h b (List.mem_cons_self b t))]
    rw [ih (fun x hx => h x (List.mem_cons_of_mem b hx))]
    rfl

theorem stableSort_eq_of_sorted {l : List HandlerInfo}
    (h : List.Pairwise (fun x y => x.priority ≤ y.priority) l) :
    stableSortByPriority l = l := by
  induction l using List.reverseRecOn with
  | nil => rfl
  | append_singleton t a ih =>
    rw [stableSort_append_one]
    rw [ih (List.Pairwise.sublist (List.sublist_append_left t [a]) h)]
    refine insertStable_of_all_le ?_
    intro x hx
    have := (List.pairwise_append.mp h).2.2 x hx a (List.mem_singleton_self a)
    exact this

theorem insertStable_pairwise_fresh {a : HandlerInfo} {l : List HandlerInfo}
    (hs : List.Pairwise lexLt l) (hfresh : ∀ x ∈ l, x.id < a.id) :
    List.Pairwise lexLt (insertStable a l) := by
  induction l with
  | nil => exact List.pairwise_singleton lexLt a
  | cons b t ih =>
    obtain ⟨hb, ht⟩ := List.pairwise_cons.mp hs
    simp only [insertStable]
    split
    · rename_i hle
      refine List.pairwise_cons.mpr ⟨?_, ih ht (fun x hx => hfresh x (List.mem_cons_of_mem b hx))⟩
      intro y hy
      rcases mem_insertStable.mp hy with hya | hyt
      · subst hya
        rcases Nat.lt_or_ge b.priority y.priority with hlt | hge
        · exact Or.inl hlt
        · exact Or.inr ⟨Nat.le_antisymm hle hge, hfresh b (List.mem_cons_self b t)⟩
      · exact hb y hyt
    · rename_i hgt
      have hab : a.priority < b.priority := Nat.lt_of_not_le hgt
      refine List.pairwise_cons.mpr ⟨?_, hs⟩
      intro y hy
      rcases List.mem_cons.mp hy with hyb | hyt
      · subst hyb
        exact Or.inl hab
      · refine Or.inl (Nat.lt_of_lt_of_le hab ?_)
        rcases hb y hyt with hlt | ⟨heq, _⟩
        · exact Nat.le_of_lt hlt
        · exact Nat.le_of_eq heq

theorem lexLt_priority_le {x y : HandlerInfo} (h : lexLt x y) : x.priority ≤ y.priority := by
  rcases h with hlt | ⟨heq, _⟩
  · exact Nat.le_of_lt hlt
  · exact Nat.le_of_eq heq

theorem subscribe_of_sorted {l : List HandlerInfo} {a : HandlerInfo}
    (h : List.Pairwise lexLt l) : subscribe l a = insertStable a l := by
  rw [subscribe, stableSort_append_one]
  rw [stableSort_eq_of_sorted (h.imp lexLt_priority_le)]

theorem foldl_subscribe_inv (infos : List HandlerInfo) :
    ∀ acc : List HandlerInfo, List.Pairwise lexLt acc →
      (∀ x ∈ acc, ∀ y ∈ infos, x.id < y.id) →
      List.Pairwise (fun p q : HandlerInfo => p.id < q.id) infos →
      List.Pairwise lexLt (infos.foldl subscribe acc) ∧
        List.Perm (infos.foldl subscribe acc) (acc ++ infos) := by
  induction infos with
  | nil =>
    intro acc hacc _ _
    simp only [List.foldl_nil, List.append_nil]
    exact ⟨hacc, List.Perm.refl acc⟩
  | cons a rest ih =>
    intro acc hacc hlt hinf
    obtain ⟨ha, hrest⟩ := List.pairwise_cons.mp hinf
    have hfresh : ∀ x ∈ acc, x.id < a.id :=
      fun x hx => hlt x hx a (List.mem_cons_self a rest)
    have hstep : subscribe acc a = insertStable a acc := subscribe_of_sorted hacc
    have hacc' : List.Pairwise lexLt (subscribe acc a) := by
      rw [hstep]
      exact insertStable_pairwise_fresh hacc hfresh
    have hperm : List.Perm (subscribe acc a) (a :: acc) := by
      rw [hstep]
      exact insertStable_perm a acc
    have hlt' : ∀ x ∈ subscribe acc a, ∀ y ∈ rest, x.id < y.id := by
      intro x hx y hy
      rcases List.mem_cons.mp (hperm.mem_iff.mp hx) with hxa | hxacc
      · subst hxa
        exact ha y hy
      · exact hlt x hxacc y (List.mem_cons_of_mem a hy)
    obtain ⟨hp, hq⟩ := ih (subscribe acc a) hacc' hlt' hrest
    refine ⟨hp, hq.trans ?_⟩
    exact (hperm.append_right rest).trans List.perm_middle.symm

theorem tagRegs_id_ge (regs : List (Nat × Bool)) :
    ∀ i, ∀ x ∈ tagRegs i regs, i ≤ x.id := by
  induction regs with
  | nil =>
    intro i x hx
    simp [tagRegs] at hx
  | cons r rs ih =>
    intro i x hx
    rcases List.mem_cons.mp hx with hxa | hxt
    · subst hxa
      exact Nat.le_refl i
    · exact Nat.le_of_succ_le (ih (i + 1) x hxt)

theorem tagRegs_pairwise (regs : List (Nat × Bool)) :
    ∀ i, List.Pairwise (fun p q : HandlerInfo => p.id < q.id) (tagRegs i regs) := by
  induction regs with
  | nil =>
    intro i
    exact List.Pairwise.nil
  | cons r rs ih =>
    intro i
    refine List.pairwise_cons.mpr ⟨?_, ih (i + 1)⟩
    intro y hy
    exact Nat.lt_of_lt_of_le (Nat.lt_succ_self i) (tagRegs_id_ge rs (i + 1) y hy)

theorem emitLoop_invoked_all {beh : Nat → Bool → Bool × Bool}
    (hnc : ∀ i, (beh i false).1 = false) :
    ∀ hs : List HandlerInfo, (emitLoop beh hs false).invoked = hs.map HandlerInfo.id := by
  intro hs
  induction hs with
  | nil => rfl
  | cons info rest ih =>
    simp only [emitLoop, if_neg (Bool.false_ne_true), List.map_cons]
    rw [hnc info.id]
    exact congrArg (info.id :: ·) ih

/-- C1. For every sequence of `subscribe` calls and every subsequent
sequential `emit` of an event of that type, the handlers are invoked
in non-decreasing priority order (lower numeric priority value first),
and handlers registered with equal priority are invoked in their
registration order: the registration list produced by the sequence is
sorted strictly by (priority, registration index), holds exactly the
registered handlers, and a dispatch in which no handler cancels the
event invokes precisely that list in its order. -/
theorem c1_emit_priority_order (regs : List (Nat × Bool)) (beh : Nat → Bool → Bool × Bool)
    (hnc : ∀ i, (beh i false).1 = false) :
    List.Pairwise lexLt (subscribeAll regs) ∧
      List.Perm (subscribeAll regs) (tagRegs 0 regs) ∧
      (emitLoop beh (subscribeAll regs) false).invoked = (subscribeAll regs).map HandlerInfo.id := by
  obtain ⟨hp, hq⟩ := foldl_subscribe_inv (tagRegs 0 regs) []
    List.Pairwise.nil (by intro x hx; simp at hx) (tagRegs_pairwise regs 0)
  exact ⟨hp, by simpa using hq, emitLoop_invoked_all hnc (subscribeAll regs)⟩

/-- Witness for C1 at the subscription sequence LOW, HIGH, NORMAL,
HIGH with inert handlers. -/
theorem c1_witness :
    List.Pairwise lexLt (subscribeAll regsEx) ∧
      List.Perm (subscribeAll regsEx) (tagRegs 0 regsEx) ∧
      (emitLoop behInert (subscribeAll regsEx) false).invoked =
        (subscribeAll regsEx).map HandlerInfo.id :=
  c1_emit_priority_order regsEx behInert (fun _ => rfl)

theorem cancelState_cons (beh : Nat → Bool → Bool × Bool) (h : HandlerInfo)
    (t : List HandlerInfo) (c : Bool) :
    cancelState beh (h :: t) c = cancelState beh t ((beh h.id c).1) := rfl

theorem emitLoop_char (beh : Nat → Bool → Bool × Bool) :
    ∀ (hs : List HandlerInfo) (c₀ : Bool),
      (emitLoop beh hs c₀).invoked.length ≤ hs.length ∧
      (emitLoop beh hs c₀).invoked =
        (hs.take (emitLoop beh hs c₀).invoked.length).map HandlerInfo.id ∧
      (∀ k, k < (emitLoop beh hs c₀).invoked.length → cancelState beh (hs.take k) c₀ = false) ∧
      ((emitLoop beh hs c₀).invoked.length < hs.length →
        cancelState beh (hs.take (emitLoop beh hs c₀).invoked.length) c₀ = true) := by
  intro hs
  induction hs with
  | nil =>
    intro c₀
    refine ⟨Nat.le_refl 0, rfl, ?_, ?_⟩
    · intro k hk
      simp [emitLoop] at hk
    · intro hk
      simp [emitLoop] at hk
  | cons info rest ih =>
    intro c₀
    cases c₀ with
    | true =>
      simp only [emitLoop, if_pos rfl]
      refine ⟨Nat.zero_le _, rfl, ?_, ?_⟩
      · intro k hk
        simp at hk
      · intro _
        rfl
    | false =>
      obtain ⟨ih1, ih2, ih3, ih4⟩ := ih ((beh info.id false).1)
      have hun : emitLoop beh (info :: rest) false =
          { invoked := info.id :: (emitLoop beh rest ((beh info.id false).1)).invoked
            cancelled := (emitLoop beh rest ((beh info.id false).1)).cancelled
            toRemove := (if info.once && !(beh info.id false).2 then [info.id] else []) ++
              (emitLoop beh rest ((beh info.id false).1)).toRemove } := by
        simp [emitLoop]
      rw [hun]
      dsimp only
      simp only [List.length_cons]
      refine ⟨?_, ?_, ?_, ?_⟩
      · exact Nat.succ_le_succ ih1
      · rw [List.take_succ_cons, List.map_cons]
        exact congrArg (info.id :: ·) ih2
      · intro k hk
        cases k with
        | zero => rfl
        | succ k' =>
          rw [List.take_succ_cons, cancelState_cons]
          exact ih3 k' (Nat.lt_of_succ_lt_succ hk)
      · intro hlt
        rw [List.take_succ_cons, cancelState_cons]
        exact ih4 (Nat.lt_of_succ_lt_succ hlt)

/-- C2. During any single sequential `emit` call, once the event's
cancelled flag is set, no later handler in the dispatch's iteration
order is invoked: if the flag is set after the first `n` snapshot
positions, at most the first `n` handlers are invoked; moreover the
invoked handlers are exactly an initial prefix of the snapshot, each
of which started with the flag unset. The handler that sets the flag
is never interrupted mid-execution: handlers run atomically in this
sequential dispatch model, the flag being consulted only between
handler invocations. -/
theorem c2_cancel_stops_dispatch (beh : Nat → Bool → Bool × Bool) (hs : List HandlerInfo)
    (c₀ : Bool) (n : Nat) (_hn : n ≤ hs.length)
    (hc : cancelState beh (hs.take n) c₀ = true) :
    (emitLoop beh hs c₀).invoked.length ≤ n ∧
      (emitLoop beh hs c₀).invoked =
        (hs.take (emitLoop beh hs c₀).invoked.length).map HandlerInfo.id ∧
      (∀ k, k < (emitLoop beh hs c₀).invoked.length → cancelState beh (hs.take k) c₀ = false) := by
  obtain ⟨_, h2, h3, _⟩ := emitLoop_char beh hs c₀
  refine ⟨?_, h2, h3⟩
  by_contra hlt
  push_neg at hlt
  exact absurd (hc.symm.trans (h3 n hlt)) (by decide)

/-- Witness for C2: on the three-handler bus, handler 1 cancels, so
the flag is set after position 2 and at most handlers 0 and 1 run. -/
theorem c2_witness :
    (emitLoop behCancelAtOne busEx false).invoked.length ≤ 2 ∧
      (emitLoop behCancelAtOne busEx false).invoked =
        (busEx.take (emitLoop behCancelAtOne busEx false).invoked.length).map HandlerInfo.id ∧
      (∀ k, k < (emitLoop behCancelAtOne busEx false).invoked.length →
        cancelState behCancelAtOne (busEx.take k) false = false) :=
  c2_cancel_stops_dispatch behCancelAtOne busEx false 2 (by decide) (by decide)

theorem emitLoop_invoked_congr {beh₁ beh₂ : Nat → Bool → Bool × Bool}
    (h : ∀ i c, (beh₁ i c).1 = (beh₂ i c).1) :
    ∀ (hs : List HandlerInfo) (c₀ : Bool),
      (emitLoop beh₁ hs c₀).invoked = (emitLoop beh₂ hs c₀).invoked := by
  intro hs
  induction hs with
  | nil => intro c₀; rfl
  | cons info rest ih =>
    intro c₀
    cases c₀ with
    | true => rfl
    | false =>
      simp only [emitLoop, if_neg Bool.false_ne_true]
      rw [h info.id false]
      exact congrArg (info.id :: ·) (ih ((beh₂ info.id false).1))

/-- C3. For every sequential `emit` call, a handler that raises is
caught at the bus boundary (the dispatch loop is a total function that
always returns a result) and raising changes nothing about which
handlers run: the invoked sequence equals that of the same dispatch
with every raise removed, and in a dispatch where no handler cancels
the event every registered handler is invoked in its position even if
handlers raise. -/
theorem c3_handler_fault_isolation (beh : Nat → Bool → Bool × Bool) (hs : List HandlerInfo)
    (c₀ : Bool) :
    (emitLoop beh hs c₀).invoked = (emitLoop (stripRaises beh) hs c₀).invoked ∧
      ((∀ i c, (beh i c).1 = c) →
        (emitLoop beh hs false).invoked = hs.map HandlerInfo.id) := by
  constructor
  · exact @emitLoop_invoked_congr beh (stripRaises beh) (fun _ _ => rfl) hs c₀
  · intro hnc
    exact emitLoop_invoked_all (fun i => hnc i false) hs

/-- Witness for C3: on the three-handler bus, handler 1 raises; the
invoked sequence matches the raise-free dispatch and covers the whole
bus. -/
theorem c3_witness :
    (emitLoop behRaiseAtOne busEx false).invoked =
      (emitLoop (stripRaises behRaiseAtOne) busEx false).invoked ∧
      (emitLoop behRaiseAtOne busEx false).invoked = busEx.map HandlerInfo.id :=
  ⟨(c3_handler_fault_isolation behRaiseAtOne busEx false).1,
   (c3_handler_fault_isolation behRaiseAtOne busEx false).2 (fun _ _ => rfl)⟩

theorem emitLoopI_fst (beh : Nat → Bool → Bool × Bool) (ops : Nat → List BusOp) :
    ∀ (snap : List HandlerInfo) (k : Nat) (c : Bool) (live : List HandlerInfo),
      (emitLoopI beh ops snap k c live).1 = emitLoop beh snap c := by
  intro snap
  induction snap with
  | nil => intro k c live; rfl
  | cons info rest ih =>
    intro k c live
    cases c with
    | true => rfl
    | false =>
      simp only [emitLoopI, emitLoop, if_neg Bool.false_ne_true]
      rw [ih (k + 1) ((beh info.id false).1) (applyOps live (ops k))]

/-- C5. A sequential `emit` call iterates over a snapshot of the
registration list taken when the call starts: whatever subscribe and
unsubscribe operations other tasks interleave into the dispatch while
handlers are suspended, the dispatch result — invoked handlers, final
cancelled flag and once-removal set — is exactly that of the
uninterfered dispatch over the snapshot. -/
theorem c5_snapshot_dispatch (beh : Nat → Bool → Bool × Bool) (ops : Nat → List BusOp)
    (bus : List HandlerInfo) (c₀ : Bool) :
    (emitI beh ops bus c₀).1 = emitLoop beh bus c₀ ∧
      (emitI beh ops bus c₀).1.invoked = (emit beh bus c₀).1.invoked := by
  have h : (emitI beh ops bus c₀).1 = emitLoop beh bus c₀ :=
    emitLoopI_fst beh ops bus 0 c₀ bus
  exact ⟨h, congrArg EmitResult.invoked h⟩

theorem countNat_cons (a x : Nat) (l : List Nat) :
    (a :: l).count x = (if a = x then 1 else 0) + l.count x := by
  by_cases h : a = x
  · simp [List.count_cons, h]
    omega
  · simp [List.count_cons, h]

theorem countById_cons (h : HandlerInfo) (t : List HandlerInfo) (x : Nat) :
    countById (h :: t) x = (if h.id = x then 1 else 0) + countById t x := by
  by_cases hx : h.id = x
  · simp [countById, List.filter_cons, hx]
    omega
  · simp [countById, List.filter_cons, hx]

theorem emitLoop_count_le (beh : Nat → Bool → Bool × Bool) (x : Nat) :
    ∀ (hs : List HandlerInfo) (c₀ : Bool),
      (emitLoop beh hs c₀).invoked.count x ≤ countById hs x := by
  intro hs
  induction hs with
  | nil => intro c₀; exact Nat.le_refl 0
  | cons info rest ih =>
    intro c₀
    cases c₀ with
    | true => exact Nat.zero_le _
    | false =>
      simp only [emitLoop, if_neg Bool.false_ne_true]
      rw [countById_cons, countNat_cons]
      have hr := ih ((beh info.id false).1)
      by_cases hx : info.id = x
      · rw [if_pos hx]
        omega
      · rw [if_neg hx]
        omega

theorem emitLoop_toRemove_count (beh : Nat → Bool → Bool × Bool) (x : Nat)
    (hnr : ∀ c, (beh x c).2 = false) :
    ∀ (hs : List HandlerInfo) (c₀ : Bool),
      (∀ h ∈ hs, h.id = x → h.once = true) →
      (emitLoop beh hs c₀).toRemove.count x = (emitLoop beh hs c₀).invoked.count x := by
  intro hs
  induction hs with
  | nil => intro c₀ _; rfl
  | cons info rest ih =>
    intro c₀ honce
    cases c₀ with
    | true => rfl
    | false =>
      simp only [emitLoop, if_neg Bool.false_ne_true]
      have hrest := ih ((beh info.id false).1)
        (fun h hh => honce h (List.mem_cons_of_mem info hh))
      by_cases hx : info.id = x
      · have ho : info.once = true := honce info (List.mem_cons_self info rest) hx
        have hnb : (beh info.id false).2 = false := by rw [hx]; exact hnr false
        simp only [ho, hnb, Bool.not_false, Bool.and_true, if_pos]
        have hbx : (info.id == x) = true := beq_iff_eq.mpr hx
        simp [List.count_cons, List.count_append, hbx, hrest]
      · have hbx : (info.id == x) = false := beq_false_of_ne hx
        by_cases hcond : (info.once && !(beh info.id false).2) = true
        · simp [hcond, List.count_cons, List.count_append, hbx, hrest]
        · simp only [Bool.not_eq_true] at hcond
          simp [hcond, List.count_cons, List.count_append, hbx, hrest]

theorem countById_removeFirst_ne (x y : Nat) (hxy : y ≠ x) :
    ∀ l : List HandlerInfo, countById (removeFirstById l y) x = countById l x := by
  intro l
  induction l with
  | nil => rfl
  | cons h t ih =>
    simp only [removeFirstById]
    by_cases hy : h.id = y
    · rw [if_pos hy, countById_cons, if_neg (by rw [hy]; exact hxy)]
      omega
    · rw [if_neg hy, countById_cons, countById_cons, ih]

theorem countById_removeFirst_self (x : Nat) :
    ∀ l : List HandlerInfo, countById (removeFirstById l x) x = countById l x - 1 := by
  intro l
  induction l with
  | nil => rfl
  | cons h t ih =>
    simp only [removeFirstById]
    by_cases hy : h.id = x
    · rw [if_pos hy, countById_cons, if_pos hy]
      omega
    · rw [if_neg hy, countById_cons, countById_cons, if_neg hy, ih]
      omega

theorem countById_foldRemove (x : Nat) :
    ∀ (rem : List Nat) (bus : List HandlerInfo),
      countById (rem.foldl removeFirstById bus) x = countById bus x - rem.count x := by
  intro rem
  induction rem with
  | nil => intro bus; simp
  | cons y ys ih =>
    intro bus
    simp only [List.foldl_cons]
    rw [ih (removeFirstById bus y)]
    by_cases hxy : y = x
    · subst hxy
      rw [countById_removeFirst_self]
      simp [List.count_cons]
      omega
    · rw [countById_removeFirst_ne x y hxy]
      have : (y == x) = false := beq_false_of_ne hxy
      simp [List.count_cons, this]

theorem mem_removeFirst {h : HandlerInfo} {y : Nat} :
    ∀ l : List HandlerInfo, h ∈ removeFirstById l y → h ∈ l := by
  intro l
  induction l with
  | nil => intro hm; exact absurd hm (List.not_mem_nil h)
  | cons a t ih =>
    simp only [removeFirstById]
    by_cases hy : a.id = y
    · rw [if_pos hy]
      exact fun hm => List.mem_cons_of_mem a hm
    · rw [if_neg hy]
      intro hm
      rcases List.mem_cons.mp hm with hha | hht
      · exact hha ▸ List.mem_cons_self a t
      · exact List.mem_cons_of_mem a (ih hht)

theorem mem_foldRemove {h : HandlerInfo} :
    ∀ (rem : List Nat) (bus : List HandlerInfo),
      h ∈ rem.foldl removeFirstById bus → h ∈ bus := by
  intro rem
  induction rem with
  | nil => intro bus hm; exact hm
  | cons y ys ih =>
    intro bus hm
    exact mem_removeFirst bus (ih (removeFirstById bus y) hm)

theorem emit_once_step (beh : Nat → Bool → Bool × Bool) (bus : List HandlerInfo)
    (c₀ : Bool) (x : Nat)
    (honce : ∀ h ∈ bus, h.id = x → h.once = true)
    (hnr : ∀ c, (beh x c).2 = false) :
    countById (emit beh bus c₀).2 x =
      countById bus x - (emit beh bus c₀).1.invoked.count x := by
  show countById ((emitLoop beh bus c₀).toRemove.foldl removeFirstById bus) x = _
  rw [countById_foldRemove, emitLoop_toRemove_count beh x hnr bus c₀ honce]
  rfl

theorem runEmits_once_le (x : Nat) :
    ∀ (emits : List ((Nat → Bool → Bool × Bool) × Bool)) (bus : List HandlerInfo),
      (∀ h ∈ bus, h.id = x → h.once = true) →
      (∀ e ∈ emits, ∀ c, (e.1 x c).2 = false) →
      totalInvocations x (runEmits emits bus).1 ≤ countById bus x := by
  intro emits
  induction emits with
  | nil => intro bus _ _; exact Nat.zero_le _
  | cons e es ih =>
    intro bus honce hnr
    have hstep : countById (emit e.1 bus e.2).2 x =
        countById bus x - (emit e.1 bus e.2).1.invoked.count x :=
      emit_once_step e.1 bus e.2 x honce (hnr e (List.mem_cons_self e es))
    have hle : (emit e.1 bus e.2).1.invoked.count x ≤ countById bus x :=
      emitLoop_count_le e.1 x bus e.2
    have honce' : ∀ h ∈ (emit e.1 bus e.2).2, h.id = x → h.once = true := by
      intro h hm
      exact honce h (mem_foldRemove _ bus hm)
    have hrest := ih (emit e.1 bus e.2).2 honce'
      (fun e' he' => hnr e' (List.mem_cons_of_mem e he'))
    show totalInvocations x ((emit e.1 bus e.2).1.invoked :: (runEmits es (emit e.1 bus e.2).2).1)
      ≤ countById bus x
    simp only [totalInvocations, List.map_cons, List.sum_cons]
    have : totalInvocations x (runEmits es (emit e.1 bus e.2).2).1 ≤
        countById bus x - (emit e.1 bus e.2).1.invoked.count x := hstep ▸ hrest
    simp only [totalInvocations] at this
    omega

/-- Counterexample to C4 as stated: a handler subscribed with
once = true whose invocation raises is not appended to `to_remove`
(the bookkeeping sits after the handler call inside the `try`), so it
stays registered and is invoked again by the next emit — here it is
invoked twice across two emit calls. -/
theorem c4_once_counterexample :
    ¬ totalInvocations 0
        (runEmits [(behRaiseAll, false), (behRaiseAll, false)] onceBus).1 ≤ 1 := by
  decide

/-- C4 (amended). A handler subscribed with once = true is invoked at
most once across any sequence of sequential emit calls provided its
invocations complete without raising; after any emit call in which it
fired without raising it is absent from that event type's registration
list. A once handler that raises is not removed and may be invoked
again. -/
theorem c4_once_amended (emits : List ((Nat → Bool → Bool × Bool) × Bool))
    (bus : List HandlerInfo) (x : Nat)
    (hcount : countById bus x = 1)
    (honce : ∀ h ∈ bus, h.id = x → h.once = true)
    (hnr : ∀ e ∈ emits, ∀ c, (e.1 x c).2 = false) :
    totalInvocations x (runEmits emits bus).1 ≤ 1 ∧
      ∀ (beh : Nat → Bool → Bool × Bool) (c₀ : Bool), (∀ c, (beh x c).2 = false) →
        countById (emit beh bus c₀).2 x = 1 - (emit beh bus c₀).1.invoked.count x := by
  constructor
  · exact hcount ▸ runEmits_once_le x emits bus honce hnr
  · intro beh c₀ hb
    rw [emit_once_step beh bus c₀ x honce hb, hcount]

/-- Witness for C4 (amended) at the single once-handler bus with two
non-raising emits. -/
theorem c4_once_witness :
    totalInvocations 0 (runEmits [(behInert, false), (behInert, false)] onceBus).1 ≤ 1 ∧
      ∀ (beh : Nat → Bool → Bool × Bool) (c₀ : Bool), (∀ c, (beh 0 c).2 = false) →
        countById (emit beh onceBus c₀).2 0 = 1 - (emit beh onceBus c₀).1.invoked.count 0 :=
  c4_once_amended [(behInert, false), (behInert, false)] onceBus 0 (by decide) (by decide)
    (by
      intro e he c
      rcases List.mem_cons.mp he with h | h
      · subst h; rfl
      · rcases List.mem_cons.mp h with h2 | h2
        · subst h2; rfl
        · exact absurd h2 (List.not_mem_nil e))

theorem lookup_dictInsert (k : String) (v : Nat) :
    ∀ l : List (String × Nat), List.lookup k (dictInsert l k v) = some v := by
  intro l
  induction l with
  | nil => simp [dictInsert, List.lookup]
  | cons p t ih =>
    simp only [dictInsert]
    by_cases hk : p.1 = k
    · rw [if_pos (beq_iff_eq.mpr hk)]
      simp [List.lookup]
    · rw [if_neg (by simpa using hk)]
      have hne : (k == p.1) = false := beq_false_of_ne (fun he => hk he.symm)
      cases p with
      | mk k1 v1 =>
        simp only [List.lookup, hne]
        exact ih

/-- C6. `PluginLoader.load` is idempotent: if `load name` returns an
instance, calling it again with no intervening unload returns the very
same instance and leaves the whole state unchanged — in particular the
fresh-instance counter does not advance (no new instantiation) and the
engine's plugin registry is untouched (no second registration). -/
theorem c6_load_idempotent (st : LoaderState) (name : String) (p : Nat)
    (h : (load st name).1 = some p) :
    (load (load st name).2 name).1 = some p ∧
      (load (load st name).2 name).2 = (load st name).2 ∧
      (load (load st name).2 name).2.nextId = (load st name).2.nextId ∧
      (load (load st name).2 name).2.enginePlugins = (load st name).2.enginePlugins := by
  have key : List.lookup name (load st name).2.loaded = some p := by
    unfold load at h ⊢
    cases hlook : List.lookup name st.loaded with
    | some pid =>
      simp only [hlook] at h ⊢
      exact h
    | none =>
      cases hfind : findUnit st.dirs name with
      | none => simp [hlook, hfind] at h
      | some u =>
        cases hok : u.ok with
        | false => simp [hlook, hfind, hok] at h
        | true =>
          simp only [hlook, hfind, hok, if_pos] at h ⊢
          simp only [Option.some.injEq] at h
          subst h
          exact lookup_dictInsert name st.nextId st.loaded
  have hsecond : load (load st name).2 name = (some p, (load st name).2) := by
    set s₁ := (load st name).2 with hs
    unfold load
    rw [key]
  exact ⟨by rw [hsecond], by rw [hsecond], by rw [hsecond], by rw [hsecond]⟩

/-- Witness for C6 at a loader with one loadable unit named "echo". -/
theorem c6_witness :
    (load (load loaderEx "echo").2 "echo").1 = some 0 ∧
      (load (load loaderEx "echo").2 "echo").2 = (load loaderEx "echo").2 ∧
      (load (load loaderEx "echo").2 "echo").2.nextId = (load loaderEx "echo").2.nextId ∧
      (load (load loaderEx "echo").2 "echo").2.enginePlugins =
        (load loaderEx "echo").2.enginePlugins :=
  c6_load_idempotent loaderEx "echo" 0 (by decide)

/-- C7. `BotEngine.start` is an idempotent no-op when the engine is
already running: it returns with the state unchanged and an empty
action trace, so no plugin `on_load` hook is invoked, no platform is
started and no `EngineStartedEvent` is emitted. -/
theorem c7_start_idempotent_when_running (s : EngineState) (h : s.running = true) :
    (start s).1 = s ∧ (start s).2 = [] := by
  simp [start, h]

/-- Witness for C7 at a concrete running engine. -/
theorem c7_witness : (start engRunning).1 = engRunning ∧ (start engRunning).2 = [] :=
  c7_start_idempotent_when_running engRunning rfl

/-- Counterexample to C8 as stated: on a concrete running engine with
one platform and one plugin, `request_shutdown` leaves the running
flag set and performs no shutdown action at all, while the signal path
runs `stop`, which emits `EngineStoppingEvent`, unloads the plugin and
clears the flag. -/
theorem c8_request_shutdown_counterexample :
    (requestShutdown engRunning).1.running = true ∧
      (requestShutdown engRunning).2 = [] ∧
      (signalHandler engRunning).1.running = false ∧
      EngAction.onUnload "echo" ∈ (signalHandler engRunning).2 ∧
      EngAction.emitStopping ∈ (signalHandler engRunning).2 := by
  refine ⟨rfl, rfl, ?_, ?_, ?_⟩ <;> decide

/-- C8 (amended). `request_shutdown()` sets the shutdown event, which
releases the wait inside `start()`/`run_forever()`, but unlike the
termination-signal path it does not run `stop()`: in the session it
triggers, no `EngineStoppingEvent` is emitted, no platform is stopped,
no plugin `on_unload` hook runs, and the running flag stays true —
whereas the signal-triggered session ends with the flag cleared. -/
theorem c8_request_shutdown_amended (s : EngineState) (h : s.running = false) :
    (runForeverSession s requestShutdown).2.2 = true ∧
      (runForeverSession s requestShutdown).1.running = true ∧
      (∀ n, EngAction.onUnload n ∉ (runForeverSession s requestShutdown).2.1) ∧
      EngAction.emitStopping ∉ (runForeverSession s requestShutdown).2.1 ∧
      (∀ n, EngAction.stopPlatform n ∉ (runForeverSession s requestShutdown).2.1) ∧
      (runForeverSession s signalHandler).2.2 = true ∧
      (runForeverSession s signalHandler).1.running = false := by
  refine ⟨?_, ?_, ?_, ?_, ?_, ?_, ?_⟩ <;>
    simp [runForeverSession, start, h, requestShutdown, signalHandler, stop,
      List.mem_append, List.mem_map]

/-- Witness for C8 (amended) at a concrete idle engine. -/
theorem c8_witness :
    (runForeverSession engIdle requestShutdown).2.2 = true ∧
      (runForeverSession engIdle requestShutdown).1.running = true ∧
      (∀ n, EngAction.onUnload n ∉ (runForeverSession engIdle requestShutdown).2.1) ∧
      EngAction.emitStopping ∉ (runForeverSession engIdle requestShutdown).2.1 ∧
      (∀ n, EngAction.stopPlatform n ∉ (runForeverSession engIdle requestShutdown).2.1) ∧
      (runForeverSession engIdle signalHandler).2.2 = true ∧
      (runForeverSession engIdle signalHandler).1.running = false :=
  c8_request_shutdown_amended engIdle rfl

/-- Counterexample to C9 as stated: when the configured default name
is the empty string and a provider is registered under the empty name,
the falsy-name guard makes `get_default_provider` return the first
provider in insertion order rather than the provider registered under
the default name, although that name is present in the registry. -/
theorem c9_default_provider_counterexample :
    List.lookup engEmptyDefault.defaultProvider engEmptyDefault.providers = some 1 ∧
      getDefaultProvider engEmptyDefault = some 2 := by
  refine ⟨?_, ?_⟩ <;> decide

/-- C9 (amended). `get_default_provider()` returns the provider
registered under the configured default name when that name is
non-empty and present in the provider registry (an empty default name
is treated as unset); when the default name is empty or absent but the
registry is non-empty it returns the first provider in the registry's
insertion order; and when no providers are registered it returns an
absence — deterministically in the registry state. -/
theorem c9_default_provider_amended (s : EngineState) (p : Nat) :
    (s.providers = [] → getDefaultProvider s = none) ∧
      (s.defaultProvider ≠ "" → List.lookup s.defaultProvider s.providers = some p →
        getDefaultProvider s = some p) ∧
      ((s.defaultProvider = "" ∨ List.lookup s.defaultProvider s.providers = none) →
        s.providers ≠ [] →
        getDefaultProvider s = (s.providers.head?).map (fun q => q.2)) := by
  refine ⟨?_, ?_, ?_⟩
  · intro hempty
    simp [getDefaultProvider, hempty]
  · intro hname hlook
    have hnonempty : s.providers ≠ [] := by
      intro he
      rw [he] at hlook
      simp [List.lookup] at hlook
    simp only [getDefaultProvider, List.isEmpty_iff, if_neg hnonempty]
    rw [if_pos (by simp [hlook, bne_iff_ne, hname])]
    exact hlook
  · intro hcase hnonempty
    simp only [getDefaultProvider, List.isEmpty_iff, if_neg hnonempty]
    rcases hcase with hemp | hlook
    · rw [if_neg (by simp [hemp])]
    · rw [if_neg (by simp [hlook])]

/-- Witness for C9 (amended): a registry where the configured default
"gemini" is present resolves to the provider registered under it. -/
theorem c9_witness : getDefaultProvider engWithDefault = some 8 :=
  (c9_default_provider_amended engWithDefault 8).2.1 (by decide) (by decide)

theorem pyWords_cons_not_ws {ch : Char} (hc : ch.isWhitespace = false) (cs : List Char) :
    pyWords (ch :: cs) =
      ((ch :: cs).takeWhile (fun a => !a.isWhitespace)) ::
        pyWords ((ch :: cs).dropWhile (fun a => !a.isWhitespace)) := by
  rw [pyWords]
  rw [if_neg (by simp [hc])]

/-- C10. Context command parsing: `text` is the message's text content
or the empty string when the message or a text-carrying variant is
absent; `is_command` holds exactly when the text starts with "/"; on a
command the text tokenises into a non-empty list whose first token
starts with "/", `command` is that first token with the leading "/"
removed and lowercased, and `args` is the list of remaining tokens; on
a non-command `command` is absent and `args` is empty. -/
theorem c10_context_command_parsing (c : Context) :
    (c.message = none → Context.text c = []) ∧
      (∀ m, c.message = some m → contentText m = none → Context.text c = []) ∧
      (∀ m t, c.message = some m → contentText m = some t → Context.text c = t) ∧
      (Context.isCommand c = true ↔ ∃ r, Context.text c = '/' :: r) ∧
      (Context.isCommand c = true →
        ∃ tok rest, pyWords (Context.text c) = tok :: rest ∧
          tok.head? = some '/' ∧
          Context.command c = some ((tok.drop 1).map Char.toLower) ∧
          Context.args c = rest) ∧
      (Context.isCommand c = false → Context.command c = none ∧ Context.args c = []) := by
  have hiff : Context.isCommand c = true ↔ ∃ r, Context.text c = '/' :: r := by
    unfold Context.isCommand
    cases htext : Context.text c with
    | nil => simp [List.isPrefixOf]
    | cons a r =>
      simp only [List.isPrefixOf, List.cons.injEq, Bool.and_true]
      constructor
      · intro ha
        exact ⟨r, by rw [eq_comm, ← beq_iff_eq]; exact ⟨ha, rfl⟩⟩
      · rintro ⟨r', hr', -⟩
        rw [← hr']
        exact beq_iff_eq.mpr rfl
  refine ⟨?_, ?_, ?_, hiff, ?_, ?_⟩
  · intro h
    simp [Context.text, h]
  · intro m hm hct
    simp [Context.text, hm, hct]
  · intro m t hm hct
    simp [Context.text, hm, hct]
  · intro hcmd
    obtain ⟨r, hr⟩ := hiff.mp hcmd
    have hw : pyWords (Context.text c) =
        ('/' :: r.takeWhile (fun a => !a.isWhitespace)) ::
          pyWords (r.dropWhile (fun a => !a.isWhitespace)) := by
      rw [hr, pyWords_cons_not_ws (by decide)]
      rw [List.takeWhile_cons, List.dropWhile_cons]
      simp
    refine ⟨'/' :: r.takeWhile (fun a => !a.isWhitespace),
      pyWords (r.dropWhile (fun a => !a.isWhitespace)), hw, rfl, ?_, ?_⟩
    · unfold Context.command
      rw [if_pos hcmd, hw]
    · unfold Context.args
      rw [if_pos hcmd, hw]
      rfl
  · intro hnot
    unfold Context.command Context.args
    rw [if_neg (by simp [hnot]), if_neg (by simp [hnot])]
    exact ⟨rfl, rfl⟩

/-- Witness for C10 at the context whose message text is
"/Echo hello world". -/
theorem c10_witness :
    ∃ tok rest, pyWords (Context.text ctxEx) = tok :: rest ∧
      tok.head? = some '/' ∧
      Context.command ctxEx = some ((tok.drop 1).map Char.toLower) ∧
      Context.args ctxEx = rest :=
  (c10_context_command_parsing ctxEx).2.2.2.2.1 (by decide)

end AetherPackBot
